import Mathlib

/-!
Verification of the mpi-sppy Lagrangian bounding spoke
(`mpisppy/cylinders/lagrangian_bounder.py`) and the fixed-solution evaluator
(`mpisppy/utils/xhat_eval.py`) against their natural-language specification.

The embedding follows the source: pure computations become Lean functions,
the stateful spoke loop becomes a fuel-bounded state machine over an explicit
`SpokeState`, and the externally observable behaviour (solves, sent reports,
extension-hook invocations, kill-signal checks, weight polls) is recorded as
an explicit event trace. Collaborators that live outside the provided source
files (the hub-facing channel primitives, the base-class `Ebound`,
`Eobjective`, `infeas_prob`) are modelled from the specification text and are
marked as such in their doc comments.
-/

set_option maxHeartbeats 1000000

namespace MpiSppy

namespace Lagrangian

/-- Warmstart statuses from `sputils.WarmstartStatus` used by the spoke. -/
inductive WarmstartStatus
  | USER_SOLUTION
  | PRIOR_SOLUTION
deriving DecidableEq

/-- Extension hook names invoked by `LagrangianOuterBound.main` and by
`_LagrangianMixin.finalize`. -/
inductive HookName
  | pre_iter0
  | post_iter0
  | post_iter0_after_sync
  | miditer
  | enditer
  | enditer_after_sync
  | post_everything
deriving DecidableEq

/-- Observable events of one run of the bounding spoke: a local Lagrangian
solve (with the warmstart used, the dual weights it solved under, and its
result, `none` when the solve failed), a transmitted report, an installation
of new local dual weights, an extension-hook invocation, a kill-signal check,
and a poll of the weight channel (recording whether a new version was found). -/
inductive Event
  | solve (ws : WarmstartStatus) (w : List ℚ) (result : Option ℚ)
  | sendBound (b : Option ℚ)
  | setW (w : List ℚ)
  | hookCall (h : HookName)
  | killCheck (t : Nat) (result : Bool)
  | pollWs (t : Nat) (found : Bool)
deriving DecidableEq

/-- One local relaxed subproblem owned by the spoke: its probability and the
relaxed optimum the external solver reports under given dual weights
(`none` when the solve fails, e.g. an infeasible relaxation). Solving is
deterministic given fixed inputs (spec, External interfaces). -/
structure Subproblem where
  prob : ℚ
  optimum : List ℚ → Option ℚ

/-- Spoke configuration options (`self.opt.options`); the
`subgradient_while_waiting` key is looked up with `options.get(key, False)`,
so an absent key means the feature is off. -/
structure SpokeOptions where
  subgradient_while_waiting : Option Bool

/-- Environment of one spoke run: the local subproblems, the caller-supplied
initial dual weights, and oracles for the hub-facing primitives that live
outside the provided source (`got_kill_signal`, `update_Ws`, and the
`Compute_Xbar`-then-`Update_W` subgradient weight update), plus extension
registration (`opt.extensions is not None`) and whether the registered
extension object has a `post_everything` attribute. -/
structure Env where
  subs : List Subproblem
  initWs : List ℚ
  subgradW : List ℚ → List ℚ
  kill : Nat → Bool
  newWs : Nat → Option (List ℚ)
  extensions : Bool
  hasPostEverything : Bool
  opts : SpokeOptions

/-- Mutable spoke state threaded through `main` and `finalize`: the opt
object's current dual weights, the spoke's `localWs` receive buffer, the most
recently transmitted bound (`self.bound`), the `_PHIter` counter, and the
`trivial_bound` / `final_bound` attributes. -/
structure SpokeState where
  weights : List ℚ
  localWs : List ℚ
  bound : Option ℚ
  phIter : Nat
  trivial_bound : Option ℚ
  final_bound : Option ℚ
deriving DecidableEq

/-- Modelled from the spec: `SPBase.Ebound` (in `mpisppy.spopt`, not under
src) computes the probability-weighted expectation of the subproblem
objectives after a solve loop; a failed local computation (e.g. an infeasible
relaxation) is surfaced as an absent result for the iteration, never as a
crash. -/
def Ebound (subs : List Subproblem) (w : List ℚ) : Option ℚ :=
  if subs.all (fun s => (s.optimum w).isSome) then
    some ((subs.map (fun s => s.prob * ((s.optimum w).getD 0))).sum)
  else none

/-- Model of `_LagrangianMixin.lagrangian`: solve every local subproblem under
the current dual weights (via `solve_loop`) and return the expected bound
(`Ebound`); the solve is recorded as an event. -/
def lagrangian (env : Env) (s : SpokeState) (ws : WarmstartStatus) :
    List Event × Option ℚ :=
  let r := Ebound env.subs s.weights
  ([Event.solve ws s.weights r], r)

/-- Modelled from the spec: `Spoke.send_bound` (in `mpisppy.cylinders.spoke`,
not under src) transmits the report to the hub and records it as the spoke's
current bound. -/
def send_bound (s : SpokeState) (b : Option ℚ) : SpokeState × List Event :=
  ({ s with bound := b }, [Event.sendBound b])

/-- Model of `LagrangianOuterBound._set_weights_and_solve`: install the
received flat weight list as the local per-scenario dual weights
(`W_from_flat_list`), then re-solve all local subproblems. -/
def set_weights_and_solve (env : Env) (s : SpokeState) :
    SpokeState × List Event × Option ℚ :=
  let s1 := { s with weights := s.localWs }
  let (ev, r) := lagrangian env s1 WarmstartStatus.PRIOR_SOLUTION
  (s1, Event.setW s.localWs :: ev, r)

/-- Model of `LagrangianOuterBound.do_while_waiting_for_new_Ws`: when the
`subgradient_while_waiting` option is set, recompute the consensus point and
dual weights (`Compute_Xbar`, `Update_W`), re-solve, and send the resulting
bound when one was obtained; otherwise do nothing. -/
def do_while_waiting_for_new_Ws (env : Env) (s : SpokeState) :
    SpokeState × List Event :=
  if (env.opts.subgradient_while_waiting).getD false then
    let w2 := env.subgradW s.weights
    let s1 := { s with weights := w2 }
    let (ev, r) := lagrangian env s1 WarmstartStatus.PRIOR_SOLUTION
    match r with
    | some b =>
        let (s2, ev2) := send_bound s1 (some b)
        (s2, Event.setW w2 :: (ev ++ ev2))
    | none => (s1, Event.setW w2 :: ev)
  else (s, [])

/-- Hook events emitted at a phase boundary: one invocation when an extension
object is registered, none otherwise. -/
def hookIf (env : Env) (h : HookName) : List Event :=
  if env.extensions then [Event.hookCall h] else []

/-- Model of the polling loop of `LagrangianOuterBound.main`, run for at most
`fuel` iterations starting at poll index `t`: check the kill signal, exit when
it is set, otherwise poll for new weights; on a new version take a
weight-update WORKING step (hooks `miditer` / `enditer` /
`enditer_after_sync` around it, the bound sent only when the solve produced
one), else take the optional idle-time step. -/
def mainLoop (env : Env) : SpokeState → Nat → Nat → SpokeState × List Event
  | s, _, 0 => (s, [])
  | s, t, fuel + 1 =>
    if env.kill t then (s, [Event.killCheck t true])
    else
      match env.newWs t with
      | some ws =>
        let s1 := { s with localWs := ws }
        let (s2, evSolve, r) := set_weights_and_solve env s1
        let (s3, evSend) :=
          match r with
          | some b => send_bound s2 (some b)
          | none => (s2, [])
        let s4 := { s3 with phIter := s3.phIter + 1 }
        let (s5, evRest) := mainLoop env s4 (t + 1) fuel
        (s5, Event.killCheck t false :: Event.pollWs t true ::
          (hookIf env HookName.miditer ++ evSolve ++
           hookIf env HookName.enditer ++ evSend ++
           hookIf env HookName.enditer_after_sync ++ evRest))
      | none =>
        let (s1, evIdle) := do_while_waiting_for_new_Ws env s
        let (s2, evRest) := mainLoop env s1 (t + 1) fuel
        (s2, Event.killCheck t false :: Event.pollWs t false ::
          (evIdle ++ evRest))

/-- Model of `LagrangianOuterBound.main`: Lagrangian prep, the iteration-0
trivial-bound solve with the `USER_SOLUTION` warmstart on the caller-supplied
initial weights, the unconditional send of the trivial bound, the `pre_iter0`
/ `post_iter0` / `post_iter0_after_sync` hooks, then the polling loop
(bounded by `fuel`). -/
def spokeMain (env : Env) (fuel : Nat) : SpokeState × List Event :=
  let s0 : SpokeState :=
    { weights := env.initWs, localWs := env.initWs, bound := none,
      phIter := 0, trivial_bound := none, final_bound := none }
  let (evSolve, r) := lagrangian env s0 WarmstartStatus.USER_SOLUTION
  let s1 := { s0 with trivial_bound := r }
  let s2 := { s1 with phIter := 1 }
  let (s3, evSend) := send_bound s2 r
  let (s4, evLoop) := mainLoop env s3 0 fuel
  (s4, hookIf env HookName.pre_iter0 ++ evSolve ++
       hookIf env HookName.post_iter0 ++ evSend ++
       hookIf env HookName.post_iter0_after_sync ++ evLoop)

/-- Model of `_LagrangianMixin.finalize`: store the spoke's current bound as
`final_bound`, invoke `post_everything` when an extension is registered and
the extension object has that attribute (the source probes with `hasattr`),
and return the stored bound; nothing is transmitted. -/
def finalize (env : Env) (s : SpokeState) : SpokeState × List Event × Option ℚ :=
  let s1 := { s with final_bound := s.bound }
  let ev := if env.extensions && env.hasPostEverything then
              [Event.hookCall HookName.post_everything]
            else []
  (s1, ev, s1.final_bound)

/-- Full observable trace of a bounded spoke run followed by `finalize`. -/
def fullTrace (env : Env) (fuel : Nat) : List Event :=
  (spokeMain env fuel).2 ++ (finalize env (spokeMain env fuel).1).2.1

/-- Report events. -/
def Event.isSend : Event → Bool
  | Event.sendBound _ => true
  | _ => false

/-- Solve events. -/
def Event.isSolve : Event → Bool
  | Event.solve _ _ _ => true
  | _ => false

/-- Solve events whose local computation produced a usable bound. -/
def Event.isOkSolve : Event → Bool
  | Event.solve _ _ (some _) => true
  | _ => false

/-- Extension-hook events. -/
def Event.isHook : Event → Bool
  | Event.hookCall _ => true
  | _ => false

/-- Weight-installation events. -/
def Event.isSetW : Event → Bool
  | Event.setW _ => true
  | _ => false

/-- Events of the polling loop (kill-signal checks and weight polls); the
events preceding the first of these form the iteration-0 phase. -/
def Event.isPoll : Event → Bool
  | Event.killCheck _ _ => true
  | Event.pollWs _ _ => true
  | _ => false

/-- Kill-signal checks that returned true. -/
def Event.isTrueKill : Event → Bool
  | Event.killCheck _ true => true
  | _ => false

/-- Events strictly after the first kill-signal check that returned true
(empty when there is none). -/
def afterTrueKill : List Event → List Event
  | [] => []
  | e :: rest => if e.isTrueKill then rest else afterTrueKill rest

/-- Payload of the first report event of a trace, when any. -/
def firstSend : List Event → Option (Option ℚ)
  | [] => none
  | Event.sendBound b :: _ => some b
  | _ :: rest => firstSend rest

/-- Payload of the last report event of a trace, when any. -/
def lastSend (tr : List Event) : Option (Option ℚ) :=
  firstSend tr.reverse

/-- Iteration-0 phase of a trace: everything before the first poll event. -/
def iter0Phase (tr : List Event) : List Event :=
  tr.takeWhile (fun e => !e.isPoll)

/-- Number of report events of a trace. -/
def countSend (tr : List Event) : Nat := (tr.filter Event.isSend).length

/-- Number of solve events of a trace whose local computation produced a
usable bound. -/
def countOkSolve (tr : List Event) : Nat := (tr.filter Event.isOkSolve).length

/-- Number of weight-update WORKING iterations the polling loop performs
within `fuel` polls starting at poll index `t`. -/
def numWorking (env : Env) : Nat → Nat → Nat
  | _, 0 => 0
  | t, fuel + 1 =>
    if env.kill t then 0
    else
      match env.newWs t with
      | some _ => numWorking env (t + 1) fuel + 1
      | none => numWorking env (t + 1) fuel

/-- Hook events of the weight-update WORKING steps of a loop that performs
`n` of them (with an extension registered): `miditer`, `enditer`,
`enditer_after_sync` per step. -/
def workingHooks (n : Nat) : List Event :=
  (List.replicate n [Event.hookCall HookName.miditer,
                     Event.hookCall HookName.enditer,
                     Event.hookCall HookName.enditer_after_sync]).flatten

/-- Generic spoke state used to instantiate theorems with hypotheses. -/
def sInit : SpokeState :=
  { weights := [0, 0], localWs := [0, 0], bound := none,
    phIter := 1, trivial_bound := some 0, final_bound := none }

/-- Environment whose single local relaxation is infeasible everywhere (the
solve always fails) and whose kill signal is raised at the first poll. -/
def envInfeas : Env :=
  { subs := [⟨1, fun _ => none⟩],
    initWs := [0, 0],
    subgradW := fun w => w,
    kill := fun _ => true,
    newWs := fun _ => none,
    extensions := false, hasPostEverything := false,
    opts := { subgradient_while_waiting := none } }

/-- Environment with a failing relaxation, a new weight vector published at
poll 0, no kill signal at polls 0 and 1, and the idle-time subgradient step
enabled. -/
def envFail : Env :=
  { subs := [⟨1, fun _ => none⟩],
    initWs := [0, 0],
    subgradW := fun _ => [1, 1],
    kill := fun t => decide (2 ≤ t),
    newWs := fun t => if t = 0 then some [1, 1] else none,
    extensions := false, hasPostEverything := false,
    opts := { subgradient_while_waiting := some true } }

/-- Environment realizing the spec's concrete scenario: two local
subproblems with probabilities 3/5 and 2/5 whose relaxed optima under the
published weights [5, -3] are 10 and 20. -/
def envExpect : Env :=
  { subs := [⟨3/5, fun w => if w = [5, -3] then some 10 else some 7⟩,
             ⟨2/5, fun w => if w = [5, -3] then some 20 else some 7⟩],
    initWs := [0, 0],
    subgradW := fun w => w,
    kill := fun _ => false,
    newWs := fun t => if t = 0 then some [5, -3] else none,
    extensions := false, hasPostEverything := false,
    opts := { subgradient_while_waiting := none } }

/-- Environment with a registered extension object that does not provide a
`post_everything` attribute. -/
def envNoPost : Env :=
  { subs := [⟨1, fun _ => some 3⟩],
    initWs := [0],
    subgradW := fun w => w,
    kill := fun _ => true,
    newWs := fun _ => none,
    extensions := true, hasPostEverything := false,
    opts := { subgradient_while_waiting := none } }

/-- Environment with a registered extension object providing every hook. -/
def envExt : Env :=
  { subs := [⟨1, fun _ => some 3⟩],
    initWs := [0],
    subgradW := fun w => w,
    kill := fun t => decide (2 ≤ t),
    newWs := fun t => if t = 0 then some [7] else none,
    extensions := true, hasPostEverything := true,
    opts := { subgradient_while_waiting := none } }

end Lagrangian

namespace XhatEval

/-- One scenario held by a rank: its dictionary key (`local_scenarios` is
keyed by scenario name, rendered here as a number), its probability
(`_mpisppy_probability`), the objective value the external solver reports
given the current nonant fixing (`none` = not fixed), and whether that solve
was feasible. Solving is deterministic given fixed inputs (spec, External
interfaces). -/
structure Scenario where
  id : Nat
  prob : ℚ
  objVal : Option (List ℚ) → ℚ
  feasible : Option (List ℚ) → Bool

/-- Per-instance mutable state of `Xhat_Eval` threaded through its methods:
the `_subproblems_solvers_created` flag, the number of `_create_solvers`
invocations so far, the `objs_dict` attribute (absent until created), the
current nonant fixing, and the current values of the nonant variables. -/
structure XState where
  subproblems_solvers_created : Bool
  createCalls : Nat
  objs_dict : Option (List (Nat × ℚ))
  fixedAt : Option (List ℚ)
  currentNonants : List ℚ
deriving DecidableEq

/-- State of a freshly constructed `Xhat_Eval` instance
(`self._subproblems_solvers_created = False`, no `objs_dict`, nothing
fixed). -/
def initState (nonants : List ℚ) : XState :=
  { subproblems_solvers_created := false, createCalls := 0,
    objs_dict := none, fixedAt := none, currentNonants := nonants }

/-- Model of `Xhat_Eval._lazy_create_solvers`: return immediately when the
solvers were already created, otherwise create them once and latch the
flag. -/
def lazy_create_solvers (st : XState) : XState :=
  if st.subproblems_solvers_created then st
  else { st with subproblems_solvers_created := true,
                 createCalls := st.createCalls + 1 }

/-- Modelled from the spec: `SPOpt._fix_nonants` (not under src) fixes every
non-anticipative variable at the values in the cache. -/
def fix_nonants (st : XState) (cache : List ℚ) : XState :=
  { st with fixedAt := some cache }

/-- Python dictionary assignment `d[k] = v`: overwrite an existing key or
append a new one. -/
def dictSet (d : List (Nat × ℚ)) (k : Nat) (v : ℚ) : List (Nat × ℚ) :=
  match d with
  | [] => [(k, v)]
  | (k', v') :: rest =>
    if k' = k then (k, v) :: rest else (k', v') :: dictSet rest k v

/-- Python dictionary read `d[k]` / membership test. -/
def dictGet (d : List (Nat × ℚ)) (k : Nat) : Option ℚ :=
  match d with
  | [] => none
  | (k', v') :: rest => if k' = k then some v' else dictGet rest k

/-- Model of `Xhat_Eval.solve_one` for one scenario: lazily create the
solvers, solve (deterministically, at the current nonant fixing), and when
`compute_val_at_nonant` record the objective value in `objs_dict`. -/
def solve_one (st : XState) (s : Scenario) (computeVal : Bool) : XState :=
  let st := lazy_create_solvers st
  if computeVal then
    let d := dictSet (st.objs_dict.getD []) s.id (s.objVal st.fixedAt)
    { st with objs_dict := some d }
  else st

/-- Model of `Xhat_Eval.solve_loop`: lazily create the solvers, reset
`objs_dict` to an empty dictionary when `compute_val_at_nonant`, then solve
each scenario in order via `solve_one`. -/
def solve_loop (st : XState) (scens : List Scenario) (computeVal : Bool) :
    XState :=
  let st := lazy_create_solvers st
  let st := if computeVal then { st with objs_dict := some [] } else st
  scens.foldl (fun a s => solve_one a s computeVal) st

/-- Modelled from the spec: `SPOpt.Eobjective` with no composing function
(not under src) computes the expected objective across this rank's scenarios
from the current solution values; the cross-rank reduction is performed by
the collective wrapper. -/
def Eobjective_local (scens : List Scenario) (st : XState) : ℚ :=
  (scens.map (fun s => s.prob * s.objVal st.fixedAt)).sum

/-- Errors `Xhat_Eval.Eobjective` raises: `objs_dict` not yet computed, or a
scenario with no recorded value. -/
inductive EvalError
  | objsDictMissing
  | scenarioMissing (k : Nat)
deriving DecidableEq

/-- Accumulation loop of `Xhat_Eval.Eobjective` over `local_scenarios`:
`prob * fct(objs_dict[k])` summed, raising on a scenario with no recorded
value. -/
def sumFromDict (d : List (Nat × ℚ)) (f : ℚ → ℚ) :
    List Scenario → Except EvalError ℚ
  | [] => Except.ok 0
  | s :: rest =>
    match dictGet d s.id with
    | none => Except.error (EvalError.scenarioMissing s.id)
    | some v =>
      match sumFromDict d f rest with
      | Except.error e => Except.error e
      | Except.ok acc => Except.ok (s.prob * f v + acc)

/-- Model of `Xhat_Eval.Eobjective` (this rank's pre-reduction contribution):
lazily create the solvers; with `fct = none` defer to the base-class expected
objective, otherwise read each scenario's recorded objective from
`objs_dict`, raising when `objs_dict` or a scenario entry is missing. -/
def Eobjective (st : XState) (scens : List Scenario) (fct : Option (ℚ → ℚ)) :
    XState × Except EvalError ℚ :=
  let st := lazy_create_solvers st
  match fct with
  | none => (st, Except.ok (Eobjective_local scens st))
  | some f =>
    match st.objs_dict with
    | none => (st, Except.error EvalError.objsDictMissing)
    | some d => (st, sumFromDict d f scens)

/-- Model of `Xhat_Eval.evaluate` on one rank: lazily create the solvers, fix
the nonants at the cache, solve every scenario recording objective values,
and form this rank's contribution to the expected value; the MPI
`Allreduce(SUM)` is modelled by `evaluate_collective` summing the per-rank
contributions. -/
def evaluate (st : XState) (scens : List Scenario) (cache : List ℚ)
    (fct : Option (ℚ → ℚ)) : XState × Except EvalError ℚ :=
  let st := lazy_create_solvers st
  let st := fix_nonants st cache
  let st := solve_loop st scens true
  Eobjective st scens fct

/-- Collective result of `Xhat_Eval.evaluate` across all ranks: every rank
runs `evaluate` on its own scenarios and the local contributions are summed
(the `Allreduce` with `op=MPI.SUM`). -/
def evaluate_collective (ranks : List (List Scenario)) (cache : List ℚ)
    (fct : Option (ℚ → ℚ)) : Except EvalError ℚ :=
  ranks.foldr
    (fun scens acc =>
      match (evaluate (initState []) scens cache fct).2, acc with
      | Except.ok v, Except.ok a => Except.ok (v + a)
      | Except.error e, _ => Except.error e
      | _, Except.error e => Except.error e)
    (Except.ok 0)

/-- Model of `Xhat_Eval.evaluate_one`: lazily create the solvers, fix the
nonants at the cache, create `objs_dict` when absent, solve the one scenario
recording its objective, and return that objective. -/
def evaluate_one (st : XState) (s : Scenario) (cache : List ℚ) :
    XState × ℚ :=
  let st := lazy_create_solvers st
  let st := fix_nonants st cache
  let st := if st.objs_dict.isSome then st else { st with objs_dict := some [] }
  let st := solve_one st s true
  (st, (dictGet (st.objs_dict.getD []) s.id).getD 0)

/-- Model of `Xhat_Eval.fix_nonants_upto_stage` (the stage bookkeeping and
cache-shape checks are abstracted to the fixing itself): lazily create the
solvers, then fix. -/
def fix_nonants_upto_stage (st : XState) (cache : List ℚ) : XState :=
  let st := lazy_create_solvers st
  { st with fixedAt := some cache }

/-- Model of `Xhat_Eval._fix_nonants_at_value`: fix the nonant variables at
their current values. -/
def fix_nonants_at_value (st : XState) : XState :=
  { st with fixedAt := some st.currentNonants }

/-- Modelled from the spec: `SPOpt.infeas_prob` (not under src) computes the
probability mass of scenarios whose last solve was infeasible (infeasibility
is reported by the solver collaborator, not raised). -/
def infeas_prob (scens : List Scenario) (st : XState) : ℚ :=
  (scens.map (fun s => if s.feasible st.fixedAt then 0 else s.prob)).sum

/-- Model of `Xhat_Eval.calculate_incumbent`: lazily create the solvers,
optionally fix the nonants at their current values, solve all subproblems,
and return `none` when the infeasibility probability is nonzero, otherwise
the expected objective. -/
def calculate_incumbent (st : XState) (scens : List Scenario)
    (fixNonants : Bool) : XState × Option ℚ :=
  let st := lazy_create_solvers st
  let st := if fixNonants then fix_nonants_at_value st else st
  let st := solve_loop st scens false
  if infeas_prob scens st ≠ 0 then (st, none)
  else (st, some (Eobjective_local scens st))

/-- Public operations of `Xhat_Eval` that begin by calling
`_lazy_create_solvers`, with the arguments each needs. -/
inductive Op
  | opSolveOne (s : Scenario) (computeVal : Bool)
  | opSolveLoop (scens : List Scenario) (computeVal : Bool)
  | opEobjective (scens : List Scenario) (fct : Option (ℚ → ℚ))
  | opEvaluateOne (s : Scenario) (cache : List ℚ)
  | opEvaluate (scens : List Scenario) (cache : List ℚ) (fct : Option (ℚ → ℚ))
  | opFixUptoStage (cache : List ℚ)
  | opCalcIncumbent (scens : List Scenario) (fixNonants : Bool)

/-- State effect of one public operation (returned values projected away). -/
def applyOp (st : XState) : Op → XState
  | Op.opSolveOne s computeVal => solve_one st s computeVal
  | Op.opSolveLoop scens computeVal => solve_loop st scens computeVal
  | Op.opEobjective scens fct => (Eobjective st scens fct).1
  | Op.opEvaluateOne s cache => (evaluate_one st s cache).1
  | Op.opEvaluate scens cache fct => (evaluate st scens cache fct).1
  | Op.opFixUptoStage cache => fix_nonants_upto_stage st cache
  | Op.opCalcIncumbent scens fixNonants => (calculate_incumbent st scens fixNonants).1

/-- Concrete scenario with probability 3/5 whose objective at the fixed
candidate [2] is 10; always feasible. -/
def scA : Scenario :=
  { id := 0, prob := 3/5,
    objVal := fun c => if c = some [2] then 10 else 0,
    feasible := fun _ => true }

/-- Concrete scenario with probability 2/5 whose objective at the fixed
candidate [2] is 20; always feasible. -/
def scB : Scenario :=
  { id := 1, prob := 2/5,
    objVal := fun c => if c = some [2] then 20 else 0,
    feasible := fun _ => true }

/-- Concrete scenario that is infeasible at every fixing. -/
def scBad : Scenario :=
  { id := 2, prob := 1/2,
    objVal := fun _ => 0,
    feasible := fun _ => false }

end XhatEval

end MpiSppy

namespace MpiSppy.Lagrangian

lemma afterTrueKill_append_of_none {xs : List Event}
    (h : ∀ e ∈ xs, e.isTrueKill = false) (ys : List Event) :
    afterTrueKill (xs ++ ys) = afterTrueKill ys := by
  induction xs with
  | nil => simp
  | cons e xs ih =>
    have he : e.isTrueKill = false := h e (by simp)
    simp only [List.cons_append, afterTrueKill, he, Bool.false_eq_true,
      if_false]
    exact ih (fun e' he' => h e' (by simp [he']))

lemma afterTrueKill_append_cases (xs ys : List Event)
    (h : afterTrueKill xs = []) :
    afterTrueKill (xs ++ ys) = ys ∨ afterTrueKill (xs ++ ys) = afterTrueKill ys := by
  induction xs with
  | nil => right; simp
  | cons e xs ih =>
    by_cases hk : e.isTrueKill = true
    · left
      have hxs : xs = [] := by simpa [afterTrueKill, hk] using h
      simp [afterTrueKill, hk, hxs]
    · have h' : afterTrueKill xs = [] := by simpa [afterTrueKill, hk] using h
      simpa [afterTrueKill, hk] using ih h'

lemma firstSend_append_some {xs : List Event} {b : Option ℚ}
    (h : firstSend xs = some b) (ys : List Event) :
    firstSend (xs ++ ys) = some b := by
  induction xs with
  | nil => simp [firstSend] at h
  | cons e xs ih =>
    cases e <;> simp_all [firstSend]

lemma firstSend_append_none {xs : List Event} (h : firstSend xs = none)
    (ys : List Event) : firstSend (xs ++ ys) = firstSend ys := by
  induction xs with
  | nil => simp
  | cons e xs ih =>
    cases e <;> simp_all [firstSend]

lemma lastSend_append_some {ys : List Event} {b : Option ℚ}
    (h : lastSend ys = some b) (xs : List Event) :
    lastSend (xs ++ ys) = some b := by
  unfold lastSend at h ⊢
  rw [List.reverse_append]
  exact firstSend_append_some h _

lemma lastSend_append_none {ys : List Event} (h : lastSend ys = none)
    (xs : List Event) : lastSend (xs ++ ys) = lastSend xs := by
  unfold lastSend at h ⊢
  rw [List.reverse_append]
  exact firstSend_append_none h _

lemma mainLoop_zero (env : Env) (s : SpokeState) (t : Nat) :
    mainLoop env s t 0 = (s, []) := rfl

lemma mainLoop_kill (env : Env) (s : SpokeState) (t fuel : Nat)
    (h : env.kill t = true) :
    mainLoop env s t (fuel + 1) = (s, [Event.killCheck t true]) := by
  simp [mainLoop, h]

lemma mainLoop_working_some (env : Env) (s : SpokeState) (t fuel : Nat)
    (ws : List ℚ) (b : ℚ) (hk : env.kill t = false) (hw : env.newWs t = some ws)
    (hb : Ebound env.subs ws = some b) :
    mainLoop env s t (fuel + 1) =
      ((mainLoop env { s with localWs := ws, weights := ws, bound := some b,
                              phIter := s.phIter + 1 } (t + 1) fuel).1,
       Event.killCheck t false :: Event.pollWs t true ::
         (hookIf env HookName.miditer ++
          [Event.setW ws, Event.solve WarmstartStatus.PRIOR_SOLUTION ws (some b)] ++
          hookIf env HookName.enditer ++ [Event.sendBound (some b)] ++
          hookIf env HookName.enditer_after_sync ++
          (mainLoop env { s with localWs := ws, weights := ws, bound := some b,
                                 phIter := s.phIter + 1 } (t + 1) fuel).2)) := by
  simp [mainLoop, set_weights_and_solve, lagrangian, send_bound, hk, hw, hb]

lemma mainLoop_working_none (env : Env) (s : SpokeState) (t fuel : Nat)
    (ws : List ℚ) (hk : env.kill t = false) (hw : env.newWs t = some ws)
    (hb : Ebound env.subs ws = none) :
    mainLoop env s t (fuel + 1) =
      ((mainLoop env { s with localWs := ws, weights := ws,
                              phIter := s.phIter + 1 } (t + 1) fuel).1,
       Event.killCheck t false :: Event.pollWs t true ::
         (hookIf env HookName.miditer ++
          [Event.setW ws, Event.solve WarmstartStatus.PRIOR_SOLUTION ws none] ++
          hookIf env HookName.enditer ++
          hookIf env HookName.enditer_after_sync ++
          (mainLoop env { s with localWs := ws, weights := ws,
                                 phIter := s.phIter + 1 } (t + 1) fuel).2)) := by
  simp [mainLoop, set_weights_and_solve, lagrangian, send_bound, hk, hw, hb]

lemma mainLoop_idle (env : Env) (s : SpokeState) (t fuel : Nat)
    (hk : env.kill t = false) (hw : env.newWs t = none) :
    mainLoop env s t (fuel + 1) =
      ((mainLoop env (do_while_waiting_for_new_Ws env s).1 (t + 1) fuel).1,
       Event.killCheck t false :: Event.pollWs t false ::
         ((do_while_waiting_for_new_Ws env s).2 ++
          (mainLoop env (do_while_waiting_for_new_Ws env s).1 (t + 1) fuel).2)) := by
  simp [mainLoop, hk, hw]

lemma do_while_off (env : Env) (s : SpokeState)
    (h : (env.opts.subgradient_while_waiting).getD false = false) :
    do_while_waiting_for_new_Ws env s = (s, []) := by
  simp [do_while_waiting_for_new_Ws, h]

lemma do_while_on_some (env : Env) (s : SpokeState) (b : ℚ)
    (h : (env.opts.subgradient_while_waiting).getD false = true)
    (hb : Ebound env.subs (env.subgradW s.weights) = some b) :
    do_while_waiting_for_new_Ws env s =
      ({ s with weights := env.subgradW s.weights, bound := some b },
       [Event.setW (env.subgradW s.weights),
        Event.solve WarmstartStatus.PRIOR_SOLUTION (env.subgradW s.weights) (some b),
        Event.sendBound (some b)]) := by
  simp [do_while_waiting_for_new_Ws, lagrangian, send_bound, h, hb]

lemma do_while_on_none (env : Env) (s : SpokeState)
    (h : (env.opts.subgradient_while_waiting).getD false = true)
    (hb : Ebound env.subs (env.subgradW s.weights) = none) :
    do_while_waiting_for_new_Ws env s =
      ({ s with weights := env.subgradW s.weights },
       [Event.setW (env.subgradW s.weights),
        Event.solve WarmstartStatus.PRIOR_SOLUTION (env.subgradW s.weights) none]) := by
  simp [do_while_waiting_for_new_Ws, lagrangian, send_bound, h, hb]

lemma iter0Phase_mainLoop (env : Env) (s : SpokeState) (t fuel : Nat) :
    (mainLoop env s t fuel).2.takeWhile (fun e => !e.isPoll) = [] := by
  cases fuel with
  | zero => simp [mainLoop]
  | succ fuel =>
    cases hk : env.kill t
    · cases hw : env.newWs t
      · rw [mainLoop_idle env s t fuel hk hw]
        simp [List.takeWhile_cons, Event.isPoll]
      · rename_i ws
        cases hb : Ebound env.subs ws
        · rw [mainLoop_working_none env s t fuel ws hk hw hb]
          simp [List.takeWhile_cons, Event.isPoll]
        · rename_i b
          rw [mainLoop_working_some env s t fuel ws b hk hw hb]
          simp [List.takeWhile_cons, Event.isPoll]
    · rw [mainLoop_kill env s t fuel hk]
      simp [List.takeWhile_cons, Event.isPoll]

lemma spokeMain_eq (env : Env) (fuel : Nat) :
    spokeMain env fuel =
      ((mainLoop env
          { weights := env.initWs, localWs := env.initWs,
            bound := Ebound env.subs env.initWs, phIter := 1,
            trivial_bound := Ebound env.subs env.initWs, final_bound := none }
          0 fuel).1,
       hookIf env HookName.pre_iter0 ++
         [Event.solve WarmstartStatus.USER_SOLUTION env.initWs
            (Ebound env.subs env.initWs)] ++
         hookIf env HookName.post_iter0 ++
         [Event.sendBound (Ebound env.subs env.initWs)] ++
         hookIf env HookName.post_iter0_after_sync ++
         (mainLoop env
          { weights := env.initWs, localWs := env.initWs,
            bound := Ebound env.subs env.initWs, phIter := 1,
            trivial_bound := Ebound env.subs env.initWs, final_bound := none }
          0 fuel).2) := by
  simp [spokeMain, lagrangian, send_bound]

lemma takeWhile_append_of_all {α : Type} {p : α → Bool} {xs : List α}
    (h : ∀ e ∈ xs, p e = true) (ys : List α) :
    (xs ++ ys).takeWhile p = xs ++ ys.takeWhile p := by
  induction xs with
  | nil => simp
  | cons e xs ih =>
    have he : p e = true := h e (by simp)
    simp only [List.cons_append, List.takeWhile_cons, he, if_true]
    rw [ih (fun e' he' => h e' (by simp [he']))]

lemma iter0Phase_spokeMain (env : Env) (fuel : Nat) :
    iter0Phase (spokeMain env fuel).2 =
      hookIf env HookName.pre_iter0 ++
      [Event.solve WarmstartStatus.USER_SOLUTION env.initWs
         (Ebound env.subs env.initWs)] ++
      hookIf env HookName.post_iter0 ++
      [Event.sendBound (Ebound env.subs env.initWs)] ++
      hookIf env HookName.post_iter0_after_sync := by
  rw [iter0Phase, spokeMain_eq]
  have hall : ∀ e ∈ (hookIf env HookName.pre_iter0 ++
      [Event.solve WarmstartStatus.USER_SOLUTION env.initWs
         (Ebound env.subs env.initWs)] ++
      hookIf env HookName.post_iter0 ++
      [Event.sendBound (Ebound env.subs env.initWs)] ++
      hookIf env HookName.post_iter0_after_sync),
      (fun e => !e.isPoll) e = true := by
    intro e he
    cases hx : env.extensions
    · simp [hookIf, hx] at he
      rcases he with rfl | rfl <;> rfl
    · simp [hookIf, hx] at he
      rcases he with rfl | rfl | rfl | rfl | rfl <;> rfl
  rw [takeWhile_append_of_all hall, iter0Phase_mainLoop, List.append_nil]

/-- C3: on its first WORKING step (iteration 0), before consuming any
hub-published weight update, the spoke performs exactly one solve, with the
`USER_SOLUTION` warmstart on the caller-supplied initial dual-weight vector
(no weight installation from a published version precedes it), and the
resulting trivial bound is passed to `send_bound` before the polling loop
starts. -/
theorem iter0_trivial_bound_baseline (env : Env) (fuel : Nat) :
    (iter0Phase (spokeMain env fuel).2).filter Event.isSolve =
      [Event.solve WarmstartStatus.USER_SOLUTION env.initWs
         (Ebound env.subs env.initWs)]
  ∧ Event.sendBound (Ebound env.subs env.initWs) ∈
      iter0Phase (spokeMain env fuel).2
  ∧ (iter0Phase (spokeMain env fuel).2).filter Event.isSetW = [] := by
  rw [iter0Phase_spokeMain]
  cases hx : env.extensions <;>
    simp [hookIf, hx, Event.isSolve, Event.isSetW, Event.isHook]

/-- C5: the idle-time subgradient step runs only when the
`subgradient_while_waiting` option is set to a true value; an absent option
defaults to off, in which case `do_while_waiting_for_new_Ws` performs no work
and sends no report; when enabled it updates the weights, re-solves, and
sends the resulting bound exactly when one was obtained. -/
theorem subgradient_idle_step_gated (env : Env) (s : SpokeState) :
    (env.opts.subgradient_while_waiting = none →
       do_while_waiting_for_new_Ws env s = (s, []))
  ∧ ((env.opts.subgradient_while_waiting).getD false = false →
       do_while_waiting_for_new_Ws env s = (s, []))
  ∧ ((env.opts.subgradient_while_waiting).getD false = true →
       (do_while_waiting_for_new_Ws env s).2 =
         Event.setW (env.subgradW s.weights) ::
         Event.solve WarmstartStatus.PRIOR_SOLUTION (env.subgradW s.weights)
           (Ebound env.subs (env.subgradW s.weights)) ::
         (match Ebound env.subs (env.subgradW s.weights) with
          | some b => [Event.sendBound (some b)]
          | none => [])) := by
  refine ⟨fun h => do_while_off env s (by simp [h]),
          fun h => do_while_off env s h, fun h => ?_⟩
  cases hb : Ebound env.subs (env.subgradW s.weights)
  · rw [do_while_on_none env s h hb]
  · rename_i b
    rw [do_while_on_some env s b h hb]

/-- Witness for C5 at concrete inputs: the option absent (no work, no
report) and the option set (subgradient step taken). -/
theorem subgradient_idle_step_gated_witness :
    do_while_waiting_for_new_Ws envExpect sInit = (sInit, [])
  ∧ (do_while_waiting_for_new_Ws envFail sInit).2 =
      Event.setW (envFail.subgradW sInit.weights) ::
      Event.solve WarmstartStatus.PRIOR_SOLUTION (envFail.subgradW sInit.weights)
        (Ebound envFail.subs (envFail.subgradW sInit.weights)) ::
      (match Ebound envFail.subs (envFail.subgradW sInit.weights) with
       | some b => [Event.sendBound (some b)]
       | none => []) :=
  ⟨(subgradient_idle_step_gated envExpect sInit).1 rfl,
   (subgradient_idle_step_gated envFail sInit).2.2 rfl⟩

lemma mainLoop_lastSend_acc (env : Env) (fuel : Nat) :
    ∀ (s : SpokeState) (t : Nat) (xs : List Event),
    lastSend xs = some s.bound →
    lastSend (xs ++ (mainLoop env s t fuel).2) =
      some (mainLoop env s t fuel).1.bound := by
  induction fuel with
  | zero =>
    intro s t xs h
    simpa [mainLoop] using h
  | succ fuel ih =>
    intro s t xs h
    cases hk : env.kill t
    case true =>
      rw [mainLoop_kill env s t fuel hk]
      rw [lastSend_append_none (by simp [lastSend, firstSend]) xs]
      exact h
    case false =>
      cases hw : env.newWs t
      case none =>
        rw [mainLoop_idle env s t fuel hk hw]
        have hx' : lastSend (xs ++ (Event.killCheck t false ::
            Event.pollWs t false :: (do_while_waiting_for_new_Ws env s).2)) =
            some (do_while_waiting_for_new_Ws env s).1.bound := by
          cases hf : (env.opts.subgradient_while_waiting).getD false
          · rw [do_while_off env s hf]
            rw [lastSend_append_none (by simp [lastSend, firstSend]) xs]
            exact h
          · cases hb : Ebound env.subs (env.subgradW s.weights)
            · rw [do_while_on_none env s hf hb]
              rw [lastSend_append_none (by simp [lastSend, firstSend]) xs]
              exact h
            · rename_i b
              rw [do_while_on_some env s b hf hb]
              have hys : lastSend (Event.killCheck t false :: Event.pollWs t false ::
                  [Event.setW (env.subgradW s.weights),
                   Event.solve WarmstartStatus.PRIOR_SOLUTION (env.subgradW s.weights) (some b),
                   Event.sendBound (some b)]) = some (some b) := by
                simp [lastSend, firstSend]
              exact lastSend_append_some hys xs
        have hrec := ih (do_while_waiting_for_new_Ws env s).1 (t + 1)
          (xs ++ (Event.killCheck t false :: Event.pollWs t false ::
            (do_while_waiting_for_new_Ws env s).2)) hx'
        rw [List.append_assoc] at hrec
        exact hrec
      case some ws =>
        cases hb : Ebound env.subs ws
        case none =>
          rw [mainLoop_working_none env s t fuel ws hk hw hb]
          have hx' : lastSend (xs ++ (Event.killCheck t false ::
              Event.pollWs t true :: (hookIf env HookName.miditer ++
              [Event.setW ws,
               Event.solve WarmstartStatus.PRIOR_SOLUTION ws none] ++
              hookIf env HookName.enditer ++
              hookIf env HookName.enditer_after_sync))) = some s.bound := by
            cases hx : env.extensions <;>
              · rw [lastSend_append_none (by simp [hookIf, hx, lastSend, firstSend]) xs]
                exact h
          have hrec := ih { s with localWs := ws, weights := ws, phIter := s.phIter + 1 } (t + 1) _ hx'
          rw [List.append_assoc] at hrec
          exact hrec
        case some b =>
          rw [mainLoop_working_some env s t fuel ws b hk hw hb]
          have hx' : lastSend (xs ++ (Event.killCheck t false ::
              Event.pollWs t true :: (hookIf env HookName.miditer ++
              [Event.setW ws,
               Event.solve WarmstartStatus.PRIOR_SOLUTION ws (some b)] ++
              hookIf env HookName.enditer ++ [Event.sendBound (some b)] ++
              hookIf env HookName.enditer_after_sync))) = some (some b) := by
            cases hx : env.extensions <;>
              exact lastSend_append_some (by simp [hookIf, hx, lastSend, firstSend]) xs
          have hrec := ih { s with localWs := ws, weights := ws, bound := some b, phIter := s.phIter + 1 } (t + 1) _ hx'
          rw [List.append_assoc] at hrec
          exact hrec

lemma spokeMain_lastSend (env : Env) (fuel : Nat) :
    lastSend (spokeMain env fuel).2 = some (spokeMain env fuel).1.bound := by
  rw [spokeMain_eq]
  have hpre : lastSend (hookIf env HookName.pre_iter0 ++
      [Event.solve WarmstartStatus.USER_SOLUTION env.initWs
         (Ebound env.subs env.initWs)] ++
      hookIf env HookName.post_iter0 ++
      [Event.sendBound (Ebound env.subs env.initWs)] ++
      hookIf env HookName.post_iter0_after_sync) =
      some (Ebound env.subs env.initWs) := by
    cases hx : env.extensions <;> simp [hookIf, hx, lastSend, firstSend]
  have := mainLoop_lastSend_acc env fuel
    { weights := env.initWs, localWs := env.initWs,
      bound := Ebound env.subs env.initWs, phIter := 1,
      trivial_bound := Ebound env.subs env.initWs, final_bound := none }
    0 _ hpre
  exact this

/-- C6: `finalize` stores the spoke's current bound as `final_bound` and
returns it — and that current bound is the most recently reported one (the
payload of the last `send_bound` of the run) — and when an extension object
with a `post_everything` hook is registered, the hook is invoked during
`finalize`. -/
theorem finalize_returns_last_reported (env : Env) (s : SpokeState)
    (fuel : Nat) :
    (finalize env s).2.2 = s.bound
  ∧ (finalize env s).1.final_bound = s.bound
  ∧ (env.extensions = true → env.hasPostEverything = true →
       (finalize env s).2.1 = [Event.hookCall HookName.post_everything])
  ∧ lastSend (spokeMain env fuel).2 = some (spokeMain env fuel).1.bound := by
  refine ⟨rfl, rfl, fun h1 h2 => ?_, spokeMain_lastSend env fuel⟩
  simp [finalize, h1, h2]

/-- Witness for C6 at a concrete input: an environment with a registered
extension object providing `post_everything`. -/
theorem finalize_returns_last_reported_witness :
    (finalize envExt sInit).2.2 = sInit.bound
  ∧ (finalize envExt sInit).2.1 = [Event.hookCall HookName.post_everything] :=
  ⟨(finalize_returns_last_reported envExt sInit 1).1,
   (finalize_returns_last_reported envExt sInit 1).2.2.1 rfl rfl⟩

lemma noTrueKill_append {xs ys : List Event}
    (hx : ∀ e ∈ xs, e.isTrueKill = false)
    (hy : ∀ e ∈ ys, e.isTrueKill = false) :
    ∀ e ∈ xs ++ ys, e.isTrueKill = false := by
  intro e he
  rcases List.mem_append.1 he with h | h
  exacts [hx e h, hy e h]

lemma hookIf_noTrueKill (env : Env) (h' : HookName) :
    ∀ e ∈ hookIf env h', e.isTrueKill = false := by
  intro e he
  cases hx : env.extensions <;> simp [hookIf, hx] at he
  subst he
  rfl

lemma setW_solve_noTrueKill (w : List ℚ) (ws' : WarmstartStatus)
    (r : Option ℚ) :
    ∀ e ∈ [Event.setW w, Event.solve ws' w r], e.isTrueKill = false := by
  intro e he
  simp at he
  rcases he with rfl | rfl <;> rfl

lemma solveEv_noTrueKill (ws' : WarmstartStatus) (w : List ℚ)
    (r : Option ℚ) : ∀ e ∈ [Event.solve ws' w r], e.isTrueKill = false := by
  intro e he
  simp at he
  subst he
  rfl

lemma sendEv_noTrueKill (b : Option ℚ) :
    ∀ e ∈ [Event.sendBound b], e.isTrueKill = false := by
  intro e he
  simp at he
  subst he
  rfl

lemma do_while_noTrueKill (env : Env) (s : SpokeState) :
    ∀ e ∈ (do_while_waiting_for_new_Ws env s).2, e.isTrueKill = false := by
  intro e he
  cases hf : (env.opts.subgradient_while_waiting).getD false
  · rw [do_while_off env s hf] at he
    simp at he
  · cases hb : Ebound env.subs (env.subgradW s.weights)
    · rw [do_while_on_none env s hf hb] at he
      simp at he
      rcases he with rfl | rfl <;> rfl
    · rename_i b
      rw [do_while_on_some env s b hf hb] at he
      simp at he
      rcases he with rfl | rfl | rfl <;> rfl

lemma mainLoop_afterTrueKill (env : Env) (fuel : Nat) :
    ∀ (s : SpokeState) (t : Nat),
    afterTrueKill (mainLoop env s t fuel).2 = [] := by
  induction fuel with
  | zero => intro s t; rfl
  | succ fuel ih =>
    intro s t
    cases hk : env.kill t
    case true =>
      rw [mainLoop_kill env s t fuel hk]
      rfl
    case false =>
      cases hw : env.newWs t
      case none =>
        rw [mainLoop_idle env s t fuel hk hw]
        have hpre : ∀ e ∈ (Event.killCheck t false :: Event.pollWs t false ::
            (do_while_waiting_for_new_Ws env s).2), e.isTrueKill = false := by
          intro e he
          rcases List.mem_cons.1 he with rfl | he
          · rfl
          rcases List.mem_cons.1 he with rfl | he
          · rfl
          exact do_while_noTrueKill env s e he
        exact (afterTrueKill_append_of_none hpre
          (mainLoop env (do_while_waiting_for_new_Ws env s).1 (t + 1) fuel).2).trans
          (ih _ _)
      case some ws =>
        cases hb : Ebound env.subs ws
        case none =>
          rw [mainLoop_working_none env s t fuel ws hk hw hb]
          have hmid : ∀ e ∈ (hookIf env HookName.miditer ++
              [Event.setW ws, Event.solve WarmstartStatus.PRIOR_SOLUTION ws none] ++
              hookIf env HookName.enditer ++
              hookIf env HookName.enditer_after_sync), e.isTrueKill = false :=
            noTrueKill_append (noTrueKill_append
              (noTrueKill_append (hookIf_noTrueKill env _)
                (setW_solve_noTrueKill ws WarmstartStatus.PRIOR_SOLUTION none))
              (hookIf_noTrueKill env _)) (hookIf_noTrueKill env _)
          have hpre : ∀ e ∈ (Event.killCheck t false :: Event.pollWs t true ::
              (hookIf env HookName.miditer ++
               [Event.setW ws, Event.solve WarmstartStatus.PRIOR_SOLUTION ws none] ++
               hookIf env HookName.enditer ++
               hookIf env HookName.enditer_after_sync)), e.isTrueKill = false := by
            intro e he
            rcases List.mem_cons.1 he with rfl | he
            · rfl
            rcases List.mem_cons.1 he with rfl | he
            · rfl
            exact hmid e he
          exact (afterTrueKill_append_of_none hpre _).trans (ih _ _)
        case some b =>
          rw [mainLoop_working_some env s t fuel ws b hk hw hb]
          have hmid : ∀ e ∈ (hookIf env HookName.miditer ++
              [Event.setW ws,
               Event.solve WarmstartStatus.PRIOR_SOLUTION ws (some b)] ++
              hookIf env HookName.enditer ++ [Event.sendBound (some b)] ++
              hookIf env HookName.enditer_after_sync), e.isTrueKill = false :=
            noTrueKill_append (noTrueKill_append (noTrueKill_append
              (noTrueKill_append (hookIf_noTrueKill env _)
                (setW_solve_noTrueKill ws WarmstartStatus.PRIOR_SOLUTION (some b)))
              (hookIf_noTrueKill env _)) (sendEv_noTrueKill (some b)))
              (hookIf_noTrueKill env _)
          have hpre : ∀ e ∈ (Event.killCheck t false :: Event.pollWs t true ::
              (hookIf env HookName.miditer ++
               [Event.setW ws,
                Event.solve WarmstartStatus.PRIOR_SOLUTION ws (some b)] ++
               hookIf env HookName.enditer ++ [Event.sendBound (some b)] ++
               hookIf env HookName.enditer_after_sync)), e.isTrueKill = false := by
            intro e he
            rcases List.mem_cons.1 he with rfl | he
            · rfl
            rcases List.mem_cons.1 he with rfl | he
            · rfl
            exact hmid e he
          exact (afterTrueKill_append_of_none hpre _).trans (ih _ _)

lemma finalize_events_cases (env : Env) (s : SpokeState) :
    (finalize env s).2.1 = [] ∨
    (finalize env s).2.1 = [Event.hookCall HookName.post_everything] := by
  by_cases hx : (env.extensions && env.hasPostEverything) = true
  · right; simp [finalize, hx]
  · left; simp [finalize] at hx ⊢
    exact hx

/-- C2: after the first kill-signal check that returns true, the spoke sends
no further report and starts no further solve — neither in the remainder of
the loop nor in `finalize`, which only returns the stored bound without
transmitting anything. -/
theorem no_reports_after_kill (env : Env) (fuel : Nat) :
    (afterTrueKill (fullTrace env fuel)).filter Event.isSend = []
  ∧ (afterTrueKill (fullTrace env fuel)).filter Event.isSolve = []
  ∧ (finalize env (spokeMain env fuel).1).2.2 = (spokeMain env fuel).1.bound
  ∧ ((finalize env (spokeMain env fuel).1).2.1).filter Event.isSend = [] := by
  have hfin := finalize_events_cases env (spokeMain env fuel).1
  have hfin_send : ((finalize env (spokeMain env fuel).1).2.1).filter
      Event.isSend = [] := by
    rcases hfin with h | h <;> simp [h, Event.isSend]
  have hfin_solve : ((finalize env (spokeMain env fuel).1).2.1).filter
      Event.isSolve = [] := by
    rcases hfin with h | h <;> simp [h, Event.isSolve]
  have hfin_atk : afterTrueKill ((finalize env (spokeMain env fuel).1).2.1) = [] := by
    rcases hfin with h | h <;> simp [h, afterTrueKill, Event.isTrueKill]
  have hpre : ∀ e ∈ (hookIf env HookName.pre_iter0 ++
      [Event.solve WarmstartStatus.USER_SOLUTION env.initWs
         (Ebound env.subs env.initWs)] ++
      hookIf env HookName.post_iter0 ++
      [Event.sendBound (Ebound env.subs env.initWs)] ++
      hookIf env HookName.post_iter0_after_sync), e.isTrueKill = false :=
    noTrueKill_append (noTrueKill_append (noTrueKill_append
      (noTrueKill_append (hookIf_noTrueKill env _)
        (solveEv_noTrueKill WarmstartStatus.USER_SOLUTION env.initWs _))
      (hookIf_noTrueKill env _)) (sendEv_noTrueKill _))
      (hookIf_noTrueKill env _)
  have hcases : afterTrueKill (fullTrace env fuel) =
        (finalize env (spokeMain env fuel).1).2.1
      ∨ afterTrueKill (fullTrace env fuel) =
        afterTrueKill ((finalize env (spokeMain env fuel).1).2.1) := by
    unfold fullTrace
    rw [spokeMain_eq]
    rw [List.append_assoc (hookIf env HookName.pre_iter0 ++ _ ++ _ ++ _ ++
      hookIf env HookName.post_iter0_after_sync)]
    rw [afterTrueKill_append_of_none hpre]
    exact afterTrueKill_append_cases _ _ (mainLoop_afterTrueKill env fuel _ 0)
  refine ⟨?_, ?_, rfl, hfin_send⟩
  · rcases hcases with h | h
    · rw [h]; exact hfin_send
    · rw [h, hfin_atk]; rfl
  · rcases hcases with h | h
    · rw [h]; exact hfin_solve
    · rw [h, hfin_atk]; rfl

/-- Counterexample to C1 as stated: with a relaxation that is infeasible
everywhere, the iteration-0 solve yields no usable bound, yet the spoke
still calls `send_bound` (with the absent trivial bound) during the
iteration-0 phase — the code guards the weight-update and idle-time sends
with `if bound is not None`, but sends the trivial bound unconditionally. -/
theorem iter0_none_still_sent_counterexample :
    Ebound envInfeas.subs envInfeas.initWs = none
  ∧ Event.sendBound none ∈ iter0Phase (spokeMain envInfeas 1).2 := by
  have hb : Ebound envInfeas.subs envInfeas.initWs = none := rfl
  have hx : envInfeas.extensions = false := rfl
  refine ⟨hb, ?_⟩
  rw [iter0Phase_spokeMain, hb]
  simp [hookIf, hx]

/-- C1 (amended): on every weight-update WORKING step and every idle-time
subgradient step whose local solve yields no usable bound, the spoke sends
no report during that step, does not crash, and continues polling (the loop
proceeds with the next kill check); on the iteration-0 step, by contrast,
the (possibly absent) trivial bound is always passed to `send_bound`. -/
theorem failed_solve_sends_nothing (env : Env) (s : SpokeState) (t fuel : Nat)
    (ws : List ℚ) (hk : env.kill t = false) :
    (env.newWs t = some ws → Ebound env.subs ws = none →
       (mainLoop env s t (fuel + 1)).2 =
         Event.killCheck t false :: Event.pollWs t true ::
           (hookIf env HookName.miditer ++
            [Event.setW ws, Event.solve WarmstartStatus.PRIOR_SOLUTION ws none] ++
            hookIf env HookName.enditer ++
            hookIf env HookName.enditer_after_sync ++
            (mainLoop env { s with localWs := ws, weights := ws, phIter := s.phIter + 1 } (t + 1) fuel).2))
  ∧ (env.newWs t = none →
       (env.opts.subgradient_while_waiting).getD false = true →
       Ebound env.subs (env.subgradW s.weights) = none →
       (mainLoop env s t (fuel + 1)).2 =
         Event.killCheck t false :: Event.pollWs t false ::
           (Event.setW (env.subgradW s.weights) ::
            Event.solve WarmstartStatus.PRIOR_SOLUTION (env.subgradW s.weights) none ::
            (mainLoop env { s with weights := env.subgradW s.weights } (t + 1) fuel).2))
  ∧ Event.sendBound (Ebound env.subs env.initWs) ∈
      iter0Phase (spokeMain env fuel).2 := by
  refine ⟨fun hw hb => ?_, fun hw hf hb => ?_, ?_⟩
  · rw [mainLoop_working_none env s t fuel ws hk hw hb]
  · rw [mainLoop_idle env s t fuel hk hw, do_while_on_none env s hf hb]
    rfl
  · rw [iter0Phase_spokeMain]
    cases hx : env.extensions <;> simp [hookIf, hx]

/-- Witness for C1 (amended) at concrete inputs: a working step and an idle
subgradient step with a failing solve send nothing and the loop continues. -/
theorem failed_solve_sends_nothing_witness :
    envFail.kill 0 = false
  ∧ envFail.newWs 0 = some [1, 1]
  ∧ Ebound envFail.subs [1, 1] = none
  ∧ (mainLoop envFail sInit 0 1).2 =
      [Event.killCheck 0 false, Event.pollWs 0 true, Event.setW [1, 1],
       Event.solve WarmstartStatus.PRIOR_SOLUTION [1, 1] none]
  ∧ (mainLoop envFail sInit 1 1).2 =
      [Event.killCheck 1 false, Event.pollWs 1 false, Event.setW [1, 1],
       Event.solve WarmstartStatus.PRIOR_SOLUTION [1, 1] none] := by
  refine ⟨rfl, rfl, rfl, ?_, ?_⟩
  · exact (failed_solve_sends_nothing envFail sInit 0 0 [1, 1] rfl).1 rfl rfl
  · exact (failed_solve_sends_nothing envFail sInit 1 0 [1, 1] rfl).2.1 rfl rfl rfl

lemma Ebound_of_isSome {subs : List Subproblem} {w : List ℚ}
    (h : ∀ sub ∈ subs, (sub.optimum w).isSome = true) :
    Ebound subs w =
      some ((subs.map (fun sub => sub.prob * ((sub.optimum w).getD 0))).sum) := by
  unfold Ebound
  rw [if_pos]
  exact List.all_eq_true.2 (fun sub hs => h sub hs)

/-- C4: on a WORKING step where a new weight vector `ws` was received, the
spoke first installs `ws` as its local per-scenario dual weights, then
re-solves its local relaxed subproblems under `ws`, and (when every local
solve succeeds) the bound it reports is the probability-weighted expectation
of the subproblem optima; afterwards the loop continues from a state whose
weights are `ws`. -/
theorem working_step_reports_expectation (env : Env) (s : SpokeState)
    (t fuel : Nat) (ws : List ℚ) (hk : env.kill t = false)
    (hw : env.newWs t = some ws)
    (hall : ∀ sub ∈ env.subs, (sub.optimum ws).isSome = true) :
    (mainLoop env s t (fuel + 1)).2 =
      Event.killCheck t false :: Event.pollWs t true ::
        (hookIf env HookName.miditer ++
         [Event.setW ws, Event.solve WarmstartStatus.PRIOR_SOLUTION ws
            (some ((env.subs.map (fun sub => sub.prob * ((sub.optimum ws).getD 0))).sum))] ++
         hookIf env HookName.enditer ++
         [Event.sendBound
            (some ((env.subs.map (fun sub => sub.prob * ((sub.optimum ws).getD 0))).sum))] ++
         hookIf env HookName.enditer_after_sync ++
         (mainLoop env { s with localWs := ws, weights := ws, bound := some ((env.subs.map (fun sub => sub.prob * ((sub.optimum ws).getD 0))).sum), phIter := s.phIter + 1 } (t + 1) fuel).2) := by
  rw [mainLoop_working_some env s t fuel ws _ hk hw (Ebound_of_isSome hall)]

/-- Witness for C4 at the spec's concrete scenario: weights [5, -3],
probabilities [3/5, 2/5], relaxed optima [10, 20], reported bound 14. -/
theorem working_step_reports_expectation_witness :
    envExpect.kill 0 = false
  ∧ envExpect.newWs 0 = some [5, -3]
  ∧ (∀ sub ∈ envExpect.subs, (sub.optimum [5, -3]).isSome = true)
  ∧ (mainLoop envExpect sInit 0 1).2 =
      [Event.killCheck 0 false, Event.pollWs 0 true, Event.setW [5, -3],
       Event.solve WarmstartStatus.PRIOR_SOLUTION [5, -3] (some 14),
       Event.sendBound (some 14)] := by
  have hsum : (List.map (fun sub => sub.prob * (sub.optimum [5, -3]).getD 0) envExpect.subs).sum = 14 := by
    norm_num [envExpect]
  refine ⟨rfl, rfl, by decide, ?_⟩
  have h := working_step_reports_expectation envExpect sInit 0 0 [5, -3]
    rfl rfl (by decide)
  rw [hsum] at h
  rw [h]
  simp [hookIf, show envExpect.extensions = false from rfl, mainLoop]

lemma do_while_filter_hook (env : Env) (s : SpokeState) :
    (do_while_waiting_for_new_Ws env s).2.filter Event.isHook = [] := by
  cases hf : (env.opts.subgradient_while_waiting).getD false
  · rw [do_while_off env s hf]
    rfl
  · cases hb : Ebound env.subs (env.subgradW s.weights)
    · rw [do_while_on_none env s hf hb]
      rfl
    · rename_i b
      rw [do_while_on_some env s b hf hb]
      rfl

lemma do_while_filter_send (env : Env) (s : SpokeState) :
    (do_while_waiting_for_new_Ws env s).2.filter Event.isSend =
      (match Ebound env.subs (env.subgradW s.weights),
             (env.opts.subgradient_while_waiting).getD false with
       | some b, true => [Event.sendBound (some b)]
       | _, _ => []) := by
  cases hf : (env.opts.subgradient_while_waiting).getD false
  · rw [do_while_off env s hf]
    cases Ebound env.subs (env.subgradW s.weights) <;> rfl
  · cases hb : Ebound env.subs (env.subgradW s.weights)
    · rw [do_while_on_none env s hf hb]
      rfl
    · rename_i b
      rw [do_while_on_some env s b hf hb]
      rfl

lemma hookIf_filter_send (env : Env) (h' : HookName) :
    (hookIf env h').filter Event.isSend = [] := by
  cases hx : env.extensions <;> simp [hookIf, hx, Event.isSend]

lemma finalize_filter_send (env : Env) (s : SpokeState) :
    (finalize env s).2.1.filter Event.isSend = [] := by
  rcases finalize_events_cases env s with h | h <;> simp [h, Event.isSend]

lemma workingHooks_succ (n : Nat) :
    workingHooks (n + 1) =
      Event.hookCall HookName.miditer :: Event.hookCall HookName.enditer ::
      Event.hookCall HookName.enditer_after_sync :: workingHooks n := by
  simp [workingHooks, List.replicate_succ]

lemma mainLoop_filter_hook_false (env : Env) (hx : env.extensions = false)
    (fuel : Nat) : ∀ (s : SpokeState) (t : Nat),
    (mainLoop env s t fuel).2.filter Event.isHook = [] := by
  induction fuel with
  | zero => intro s t; rfl
  | succ fuel ih =>
    intro s t
    cases hk : env.kill t
    case true =>
      rw [mainLoop_kill env s t fuel hk]
      rfl
    case false =>
      cases hw : env.newWs t
      case none =>
        rw [mainLoop_idle env s t fuel hk hw]
        simp [List.filter_cons, List.filter_append, Event.isHook,
          do_while_filter_hook, ih]
      case some ws =>
        cases hb : Ebound env.subs ws
        case none =>
          rw [mainLoop_working_none env s t fuel ws hk hw hb]
          simp [List.filter_cons, List.filter_append, Event.isHook,
            hookIf, hx, ih]
        case some b =>
          rw [mainLoop_working_some env s t fuel ws b hk hw hb]
          simp [List.filter_cons, List.filter_append, Event.isHook,
            hookIf, hx, ih]

lemma mainLoop_filter_hook_true (env : Env) (hx : env.extensions = true)
    (fuel : Nat) : ∀ (s : SpokeState) (t : Nat),
    (mainLoop env s t fuel).2.filter Event.isHook =
      workingHooks (numWorking env t fuel) := by
  induction fuel with
  | zero => intro s t; rfl
  | succ fuel ih =>
    intro s t
    cases hk : env.kill t
    case true =>
      rw [mainLoop_kill env s t fuel hk]
      simp [numWorking, hk, workingHooks, Event.isHook]
    case false =>
      cases hw : env.newWs t
      case none =>
        rw [mainLoop_idle env s t fuel hk hw]
        simp [List.filter_cons, List.filter_append, Event.isHook,
          do_while_filter_hook, ih, numWorking, hk, hw]
      case some ws =>
        cases hb : Ebound env.subs ws
        case none =>
          rw [mainLoop_working_none env s t fuel ws hk hw hb]
          simp [List.filter_cons, List.filter_append, Event.isHook,
            hookIf, hx, ih, numWorking, hk, hw, workingHooks_succ]
        case some b =>
          rw [mainLoop_working_some env s t fuel ws b hk hw hb]
          simp [List.filter_cons, List.filter_append, Event.isHook,
            hookIf, hx, ih, numWorking, hk, hw, workingHooks_succ]

lemma mainLoop_ext_invariant (env : Env) (b1 b2 : Bool) (fuel : Nat) :
    ∀ (s : SpokeState) (t : Nat),
    (mainLoop { env with extensions := b1, hasPostEverything := b2 } s t fuel).1
      = (mainLoop env s t fuel).1
  ∧ (mainLoop { env with extensions := b1, hasPostEverything := b2 } s t fuel).2.filter
      Event.isSend = (mainLoop env s t fuel).2.filter Event.isSend := by
  induction fuel with
  | zero => intro s t; exact ⟨rfl, rfl⟩
  | succ fuel ih =>
    intro s t
    have henv : ({ env with extensions := b1, hasPostEverything := b2 } : Env).kill
        = env.kill := rfl
    cases hk : env.kill t
    case true =>
      rw [mainLoop_kill { env with extensions := b1, hasPostEverything := b2 }
        s t fuel (by rw [henv]; exact hk), mainLoop_kill env s t fuel hk]
      exact ⟨rfl, rfl⟩
    case false =>
      cases hw : env.newWs t
      case none =>
        have hdw : do_while_waiting_for_new_Ws
            { env with extensions := b1, hasPostEverything := b2 } s
            = do_while_waiting_for_new_Ws env s := rfl
        rw [mainLoop_idle { env with extensions := b1, hasPostEverything := b2 }
          s t fuel (by rw [henv]; exact hk) hw, mainLoop_idle env s t fuel hk hw,
          hdw]
        refine ⟨(ih _ _).1, ?_⟩
        simp only [List.filter_cons, List.filter_append]
        rw [(ih _ _).2]
      case some ws =>
        cases hb : Ebound env.subs ws
        case none =>
          rw [mainLoop_working_none
            { env with extensions := b1, hasPostEverything := b2 }
            s t fuel ws (by rw [henv]; exact hk) hw hb,
            mainLoop_working_none env s t fuel ws hk hw hb]
          refine ⟨(ih _ _).1, ?_⟩
          simp only [List.filter_cons, List.filter_append, hookIf_filter_send]
          simp [Event.isSend, (ih _ _).2]
        case some b =>
          rw [mainLoop_working_some
            { env with extensions := b1, hasPostEverything := b2 }
            s t fuel ws b (by rw [henv]; exact hk) hw hb,
            mainLoop_working_some env s t fuel ws b hk hw hb]
          refine ⟨(ih _ _).1, ?_⟩
          simp only [List.filter_cons, List.filter_append, hookIf_filter_send]
          simp [Event.isSend, (ih _ _).2]

lemma fullTrace_filter_send_ext (env : Env) (b1 b2 : Bool) (fuel : Nat) :
    (fullTrace { env with extensions := b1, hasPostEverything := b2 } fuel).filter
      Event.isSend = (fullTrace env fuel).filter Event.isSend := by
  unfold fullTrace
  rw [spokeMain_eq { env with extensions := b1, hasPostEverything := b2 } fuel,
    spokeMain_eq env fuel]
  simp only [List.filter_append, List.filter_cons, hookIf_filter_send,
    finalize_filter_send]
  rw [(mainLoop_ext_invariant env b1 b2 fuel _ 0).2]

/-- Counterexample to C7 as stated: with an extension object registered
(`opt.extensions` is not None) but providing no `post_everything` attribute,
`finalize` invokes no hook — the source probes the attribute with `hasattr`
rather than relying on a polymorphic no-op default, so `post_everything` is
not invoked exactly when an extension object is registered. -/
theorem post_everything_probed_counterexample :
    envNoPost.extensions = true
  ∧ (finalize envNoPost sInit).2.1 = [] :=
  ⟨rfl, rfl⟩

/-- C7 (amended): when no extension object is registered, no hook is invoked
anywhere in the run and the reported bounds are unaffected by the hook
machinery; when one is registered, the hooks of the run are exactly
`pre_iter0`, `post_iter0`, `post_iter0_after_sync` around iteration 0
followed by `miditer`, `enditer`, `enditer_after_sync` once per weight-update
WORKING step, and `finalize` invokes `post_everything` exactly when the
extension object provides that attribute (probed with `hasattr`). -/
theorem hooks_at_phase_boundaries (env : Env) (fuel : Nat) :
    (env.extensions = false →
       (fullTrace env fuel).filter Event.isHook = []
     ∧ ∀ b : Bool,
         (fullTrace { env with extensions := true, hasPostEverything := b }
            fuel).filter Event.isSend = (fullTrace env fuel).filter Event.isSend)
  ∧ (env.extensions = true →
       (spokeMain env fuel).2.filter Event.isHook =
         Event.hookCall HookName.pre_iter0 :: Event.hookCall HookName.post_iter0 ::
         Event.hookCall HookName.post_iter0_after_sync ::
         workingHooks (numWorking env 0 fuel)
     ∧ (finalize env (spokeMain env fuel).1).2.1 =
         (if env.hasPostEverything then
            [Event.hookCall HookName.post_everything] else [])) := by
  constructor
  · intro hx
    constructor
    · unfold fullTrace
      rw [spokeMain_eq env fuel]
      have hfin : (finalize env (spokeMain env fuel).1).2.1.filter
          Event.isHook = [] := by
        rcases finalize_events_cases env (spokeMain env fuel).1 with h | h
        · simp [h]
        · exfalso
          have : (env.extensions && env.hasPostEverything) = false := by
            simp [hx]
          simp [finalize, this] at h
      rw [spokeMain_eq env fuel] at hfin
      simp only [List.filter_append, List.filter_cons, hfin]
      simp [hookIf, hx, Event.isHook, mainLoop_filter_hook_false env hx fuel]
    · intro b
      exact fullTrace_filter_send_ext env true b fuel
  · intro hx
    constructor
    · rw [spokeMain_eq env fuel]
      simp only [List.filter_append, List.filter_cons]
      simp [hookIf, hx, Event.isHook, mainLoop_filter_hook_true env hx fuel]
    · simp [finalize, hx]

/-- Witness for C7 (amended) at concrete inputs: a run with no extension
registered has no hook events, and a run with an extension registered has
exactly the phase-boundary hooks. -/
theorem hooks_at_phase_boundaries_witness :
    (fullTrace envExpect 2).filter Event.isHook = []
  ∧ (spokeMain envExt 2).2.filter Event.isHook =
      Event.hookCall HookName.pre_iter0 :: Event.hookCall HookName.post_iter0 ::
      Event.hookCall HookName.post_iter0_after_sync ::
      workingHooks (numWorking envExt 0 2) :=
  ⟨((hooks_at_phase_boundaries envExpect 2).1 rfl).1,
   ((hooks_at_phase_boundaries envExt 2).2 rfl).1⟩

end MpiSppy.Lagrangian

namespace MpiSppy.XhatEval

lemma lazy_fixedAt (st : XState) :
    (lazy_create_solvers st).fixedAt = st.fixedAt := by
  unfold lazy_create_solvers
  split <;> rfl

lemma lazy_currentNonants (st : XState) :
    (lazy_create_solvers st).currentNonants = st.currentNonants := by
  unfold lazy_create_solvers
  split <;> rfl

lemma solve_one_false_fixedAt (st : XState) (s : Scenario) :
    (solve_one st s false).fixedAt = st.fixedAt := by
  simp [solve_one, lazy_fixedAt]

lemma foldl_solve_one_false_fixedAt :
    ∀ (scens : List Scenario) (st : XState),
    (scens.foldl (fun a s => solve_one a s false) st).fixedAt = st.fixedAt
  | [], _ => rfl
  | s :: rest, st => by
    simp only [List.foldl_cons]
    rw [foldl_solve_one_false_fixedAt rest]
    exact solve_one_false_fixedAt st s

lemma solve_loop_false_fixedAt (st : XState) (scens : List Scenario) :
    (solve_loop st scens false).fixedAt = st.fixedAt := by
  unfold solve_loop
  simp only [Bool.false_eq_true, if_false]
  rw [foldl_solve_one_false_fixedAt]
  exact lazy_fixedAt st

lemma calculate_incumbent_eq (st : XState) (scens : List Scenario) (b : Bool) :
    calculate_incumbent st scens b =
      (if infeas_prob scens (solve_loop (if b then fix_nonants_at_value (lazy_create_solvers st) else lazy_create_solvers st) scens false) ≠ 0 then
         (solve_loop (if b then fix_nonants_at_value (lazy_create_solvers st) else lazy_create_solvers st) scens false, none)
       else
         (solve_loop (if b then fix_nonants_at_value (lazy_create_solvers st) else lazy_create_solvers st) scens false,
          some (Eobjective_local scens (solve_loop (if b then fix_nonants_at_value (lazy_create_solvers st) else lazy_create_solvers st) scens false)))) := rfl

/-- C10: `calculate_incumbent` returns `none` exactly when the solved
subproblems carry nonzero infeasibility probability, and otherwise returns
the expected objective — infeasibility is reported as an absent value, never
raised. -/
theorem calculate_incumbent_none_iff_infeasible (st : XState)
    (scens : List Scenario) (b : Bool) :
    ((calculate_incumbent st scens b).2 = none ↔
       (scens.map (fun s => if s.feasible (if b then some st.currentNonants else st.fixedAt) then 0 else s.prob)).sum ≠ 0)
  ∧ ((scens.map (fun s => if s.feasible (if b then some st.currentNonants else st.fixedAt) then 0 else s.prob)).sum = 0 →
       (calculate_incumbent st scens b).2 =
         some ((scens.map (fun s => s.prob * s.objVal (if b then some st.currentNonants else st.fixedAt))).sum)) := by
  have hfix : (solve_loop (if b then fix_nonants_at_value (lazy_create_solvers st) else lazy_create_solvers st) scens false).fixedAt
      = (if b then some st.currentNonants else st.fixedAt) := by
    rw [solve_loop_false_fixedAt]
    cases b
    · simp [lazy_fixedAt]
    · simp [fix_nonants_at_value, lazy_currentNonants]
  have hinf : infeas_prob scens (solve_loop (if b then fix_nonants_at_value (lazy_create_solvers st) else lazy_create_solvers st) scens false)
      = (scens.map (fun s => if s.feasible (if b then some st.currentNonants else st.fixedAt) then 0 else s.prob)).sum := by
    unfold infeas_prob
    rw [hfix]
  have hobj : Eobjective_local scens (solve_loop (if b then fix_nonants_at_value (lazy_create_solvers st) else lazy_create_solvers st) scens false)
      = (scens.map (fun s => s.prob * s.objVal (if b then some st.currentNonants else st.fixedAt))).sum := by
    unfold Eobjective_local
    rw [hfix]
  rw [calculate_incumbent_eq, hinf, hobj]
  by_cases hI : (scens.map (fun s => if s.feasible (if b then some st.currentNonants else st.fixedAt) then 0 else s.prob)).sum ≠ 0
  · rw [if_pos hI]
    exact ⟨by simpa using hI, fun h0 => absurd h0 hI⟩
  · rw [if_neg hI]
    refine ⟨by simpa using hI, fun _ => rfl⟩

/-- Witness for C10 at concrete inputs: a feasible ensemble yields the
expected objective, an infeasible one yields an absent value. -/
theorem calculate_incumbent_none_iff_infeasible_witness :
    ((([scA].map (fun s => if s.feasible (if true then some (initState [2]).currentNonants else (initState [2]).fixedAt) then 0 else s.prob)).sum : ℚ) = 0)
  ∧ (calculate_incumbent (initState [2]) [scA] true).2 =
      some (([scA].map (fun s => s.prob * s.objVal (if true then some (initState [2]).currentNonants else (initState [2]).fixedAt))).sum)
  ∧ (calculate_incumbent (initState [2]) [scBad] true).2 = none := by
  have h0 : (([scA].map (fun s => if s.feasible (if true then some (initState [2]).currentNonants else (initState [2]).fixedAt) then 0 else s.prob)).sum : ℚ) = 0 := by
    norm_num [scA]
  refine ⟨h0, (calculate_incumbent_none_iff_infeasible (initState [2]) [scA] true).2 h0, ?_⟩
  refine ((calculate_incumbent_none_iff_infeasible (initState [2]) [scBad] true).1).2 ?_
  norm_num [scBad]

lemma lazy_inv (st : XState) (h1 : st.createCalls ≤ 1)
    (h2 : st.subproblems_solvers_created = false → st.createCalls = 0) :
    (lazy_create_solvers st).createCalls ≤ 1
  ∧ ((lazy_create_solvers st).subproblems_solvers_created = false →
      (lazy_create_solvers st).createCalls = 0) := by
  unfold lazy_create_solvers
  cases hc : st.subproblems_solvers_created
  · simp only [Bool.false_eq_true, if_false]
    refine ⟨?_, by simp⟩
    rw [h2 hc]
  · simp only [if_true]
    exact ⟨h1, h2⟩

lemma solve_one_inv (st : XState) (s : Scenario) (cv : Bool)
    (h1 : st.createCalls ≤ 1)
    (h2 : st.subproblems_solvers_created = false → st.createCalls = 0) :
    (solve_one st s cv).createCalls ≤ 1
  ∧ ((solve_one st s cv).subproblems_solvers_created = false →
      (solve_one st s cv).createCalls = 0) := by
  unfold solve_one
  cases cv
  · simp only [Bool.false_eq_true, if_false]
    exact lazy_inv st h1 h2
  · simp only [if_true]
    exact lazy_inv st h1 h2

lemma foldl_solve_one_inv (cv : Bool) :
    ∀ (scens : List Scenario) (st : XState),
    st.createCalls ≤ 1 →
    (st.subproblems_solvers_created = false → st.createCalls = 0) →
    (scens.foldl (fun a s => solve_one a s cv) st).createCalls ≤ 1
  ∧ ((scens.foldl (fun a s => solve_one a s cv) st).subproblems_solvers_created = false →
      (scens.foldl (fun a s => solve_one a s cv) st).createCalls = 0)
  | [], st, h1, h2 => ⟨h1, h2⟩
  | s :: rest, st, h1, h2 => by
    simp only [List.foldl_cons]
    have h := solve_one_inv st s cv h1 h2
    exact foldl_solve_one_inv cv rest _ h.1 h.2

lemma solve_loop_inv (st : XState) (scens : List Scenario) (cv : Bool)
    (h1 : st.createCalls ≤ 1)
    (h2 : st.subproblems_solvers_created = false → st.createCalls = 0) :
    (solve_loop st scens cv).createCalls ≤ 1
  ∧ ((solve_loop st scens cv).subproblems_solvers_created = false →
      (solve_loop st scens cv).createCalls = 0) := by
  unfold solve_loop
  have hl := lazy_inv st h1 h2
  cases cv
  · simp only [Bool.false_eq_true, if_false]
    exact foldl_solve_one_inv false scens _ hl.1 hl.2
  · simp only [if_true]
    exact foldl_solve_one_inv true scens _ hl.1 hl.2

lemma Eobjective_state (st : XState) (scens : List Scenario)
    (fct : Option (ℚ → ℚ)) :
    (Eobjective st scens fct).1 = lazy_create_solvers st := by
  unfold Eobjective
  cases fct
  · rfl
  · rename_i f
    rcases h : (lazy_create_solvers st).objs_dict with _ | d <;> simp [h]

lemma calculate_incumbent_state (st : XState) (scens : List Scenario)
    (b : Bool) :
    (calculate_incumbent st scens b).1 =
      solve_loop (if b then fix_nonants_at_value (lazy_create_solvers st)
                  else lazy_create_solvers st) scens false := by
  rw [calculate_incumbent_eq]
  split <;> split <;> rfl

lemma applyOp_inv (st : XState) (op : Op) (h1 : st.createCalls ≤ 1)
    (h2 : st.subproblems_solvers_created = false → st.createCalls = 0) :
    (applyOp st op).createCalls ≤ 1
  ∧ ((applyOp st op).subproblems_solvers_created = false →
      (applyOp st op).createCalls = 0) := by
  cases op with
  | opSolveOne s cv => exact solve_one_inv st s cv h1 h2
  | opSolveLoop scens cv => exact solve_loop_inv st scens cv h1 h2
  | opEobjective scens fct =>
    simp only [applyOp, Eobjective_state]
    exact lazy_inv st h1 h2
  | opEvaluateOne s cache =>
    have hl := lazy_inv st h1 h2
    simp only [applyOp]
    unfold evaluate_one fix_nonants
    cases hsome : (({ lazy_create_solvers st with fixedAt := some cache } : XState).objs_dict).isSome
    · simp only [hsome, Bool.false_eq_true, if_false]
      exact solve_one_inv _ s true hl.1 hl.2
    · simp only [hsome, if_true]
      exact solve_one_inv _ s true hl.1 hl.2
  | opEvaluate scens cache fct =>
    simp only [applyOp]
    have heq : (evaluate st scens cache fct).1 =
        (Eobjective (solve_loop (fix_nonants (lazy_create_solvers st) cache) scens true) scens fct).1 := rfl
    rw [heq, Eobjective_state]
    have hl := lazy_inv st h1 h2
    have hsl := solve_loop_inv (fix_nonants (lazy_create_solvers st) cache) scens true hl.1 hl.2
    exact lazy_inv _ hsl.1 hsl.2
  | opFixUptoStage cache =>
    simp only [applyOp]
    unfold fix_nonants_upto_stage
    exact lazy_inv st h1 h2
  | opCalcIncumbent scens b =>
    simp only [applyOp]
    rw [calculate_incumbent_state]
    have hl := lazy_inv st h1 h2
    cases b
    · simp only [Bool.false_eq_true, if_false]
      exact solve_loop_inv _ scens false hl.1 hl.2
    · simp only [if_true]
      exact solve_loop_inv _ scens false hl.1 hl.2

lemma foldl_applyOp_inv :
    ∀ (ops : List Op) (st : XState),
    st.createCalls ≤ 1 →
    (st.subproblems_solvers_created = false → st.createCalls = 0) →
    (ops.foldl applyOp st).createCalls ≤ 1
  | [], _, h1, _ => h1
  | op :: rest, st, h1, h2 => by
    simp only [List.foldl_cons]
    have h := applyOp_inv st op h1 h2
    exact foldl_applyOp_inv rest _ h.1 h.2

/-- C9: solver creation is lazy and idempotent — once the
`_subproblems_solvers_created` flag is set, `_lazy_create_solvers` returns
immediately without creating solvers again; the first call on a fresh
instance creates them once and latches the flag; and any sequence of public
operations starting from a fresh instance creates the solvers at most
once. -/
theorem lazy_solver_creation_idempotent :
    (∀ st : XState, st.subproblems_solvers_created = true →
       lazy_create_solvers st = st)
  ∧ (∀ nonants : List ℚ,
       (lazy_create_solvers (initState nonants)).subproblems_solvers_created = true
     ∧ (lazy_create_solvers (initState nonants)).createCalls = 1)
  ∧ (∀ (nonants : List ℚ) (ops : List Op),
       (ops.foldl applyOp (initState nonants)).createCalls ≤ 1) := by
  refine ⟨fun st h => by simp [lazy_create_solvers, h], fun nonants => ⟨rfl, rfl⟩,
    fun nonants ops => ?_⟩
  exact foldl_applyOp_inv ops (initState nonants) (by simp [initState])
    (fun _ => rfl)

/-- Witness for C9 at concrete inputs: an already-created state is returned
unchanged, and a concrete operation sequence creates the solvers exactly
once. -/
theorem lazy_solver_creation_idempotent_witness :
    lazy_create_solvers (lazy_create_solvers (initState [1])) =
      lazy_create_solvers (initState [1])
  ∧ (([Op.opSolveLoop [scA, scB] true, Op.opEobjective [scA, scB] none,
       Op.opCalcIncumbent [scA, scB] true].foldl applyOp
        (initState [1])).createCalls ≤ 1) :=
  ⟨lazy_solver_creation_idempotent.1 (lazy_create_solvers (initState [1])) rfl,
   lazy_solver_creation_idempotent.2.2 [1]
     [Op.opSolveLoop [scA, scB] true, Op.opEobjective [scA, scB] none,
      Op.opCalcIncumbent [scA, scB] true]⟩

lemma lazy_objs_dict (st : XState) :
    (lazy_create_solvers st).objs_dict = st.objs_dict := by
  unfold lazy_create_solvers
  split <;> rfl

lemma solve_one_fixedAt (st : XState) (s : Scenario) (cv : Bool) :
    (solve_one st s cv).fixedAt = st.fixedAt := by
  unfold solve_one
  cases cv <;> simp [lazy_fixedAt]

lemma foldl_solve_one_fixedAt (cv : Bool) :
    ∀ (scens : List Scenario) (st : XState),
    (scens.foldl (fun a s => solve_one a s cv) st).fixedAt = st.fixedAt
  | [], _ => rfl
  | s :: rest, st => by
    simp only [List.foldl_cons]
    rw [foldl_solve_one_fixedAt cv rest]
    exact solve_one_fixedAt st s cv

lemma dictSet_fresh : ∀ (d : List (Nat × ℚ)) (k : Nat) (v : ℚ),
    (∀ p ∈ d, p.1 ≠ k) → dictSet d k v = d ++ [(k, v)]
  | [], _, _, _ => rfl
  | (k', v') :: rest, k, v, h => by
    simp only [dictSet]
    rw [if_neg (h (k', v') (by simp))]
    rw [dictSet_fresh rest k v (fun p hp => h p (by simp [hp]))]
    rfl

lemma foldl_solve_one_true_dict :
    ∀ (scens : List Scenario) (st : XState) (d : List (Nat × ℚ)),
    st.objs_dict = some d →
    (∀ s' ∈ scens, ∀ p ∈ d, p.1 ≠ s'.id) →
    (scens.map Scenario.id).Nodup →
    (scens.foldl (fun a s => solve_one a s true) st).objs_dict
      = some (d ++ scens.map (fun s => (s.id, s.objVal st.fixedAt)))
  | [], _, d, hd, _, _ => by simpa using hd
  | s :: rest, st, d, hd, hfresh, hnd => by
    simp only [List.foldl_cons]
    have hone_dict : (solve_one st s true).objs_dict
        = some (dictSet d s.id (s.objVal st.fixedAt)) := by
      simp [solve_one, lazy_objs_dict, lazy_fixedAt, hd]
    have hset : dictSet d s.id (s.objVal st.fixedAt)
        = d ++ [(s.id, s.objVal st.fixedAt)] :=
      dictSet_fresh d s.id _ (fun p hp => hfresh s (by simp) p hp)
    simp only [List.map_cons, List.nodup_cons] at hnd
    have hfresh' : ∀ s'' ∈ rest, ∀ p ∈ d ++ [(s.id, s.objVal st.fixedAt)],
        p.1 ≠ s''.id := by
      intro s'' hs'' p hp
      rcases List.mem_append.1 hp with hp | hp
      · exact hfresh s'' (by simp [hs'']) p hp
      · simp at hp
        subst hp
        intro hcon
        apply hnd.1
        rw [show s.id = s''.id from hcon]
        exact List.mem_map.2 ⟨s'', hs'', rfl⟩
    have hrec := foldl_solve_one_true_dict rest (solve_one st s true)
      (d ++ [(s.id, s.objVal st.fixedAt)]) (hone_dict.trans (by rw [hset]))
      hfresh' hnd.2
    rw [hrec, solve_one_fixedAt]
    simp

lemma dictGet_map_self (v : Scenario → ℚ) :
    ∀ (scens : List Scenario) (s : Scenario),
    s ∈ scens → (scens.map Scenario.id).Nodup →
    dictGet (scens.map (fun s' => (s'.id, v s'))) s.id = some (v s)
  | [], s, hs, _ => by simp at hs
  | s' :: rest, s, hs, hnd => by
    simp only [List.map_cons, dictGet]
    simp only [List.map_cons, List.nodup_cons] at hnd
    by_cases he : s'.id = s.id
    · rw [if_pos he]
      rcases List.mem_cons.1 hs with rfl | hsr
      · rfl
      · exfalso
        exact hnd.1 (by rw [he]; exact List.mem_map.2 ⟨s, hsr, rfl⟩)
    · rw [if_neg he]
      rcases List.mem_cons.1 hs with rfl | hsr
      · exact absurd rfl he
      · exact dictGet_map_self v rest s hsr hnd.2

lemma sumFromDict_of_lookup (d : List (Nat × ℚ)) (f : ℚ → ℚ)
    (v : Scenario → ℚ) :
    ∀ l : List Scenario, (∀ s ∈ l, dictGet d s.id = some (v s)) →
    sumFromDict d f l = Except.ok ((l.map (fun s => s.prob * f (v s))).sum)
  | [], _ => by simp [sumFromDict]
  | s :: rest, h => by
    simp only [sumFromDict]
    rw [h s (by simp)]
    rw [sumFromDict_of_lookup d f v rest (fun s' hs' => h s' (by simp [hs']))]
    simp

lemma evaluate_result (st : XState) (scens : List Scenario) (cache : List ℚ)
    (hnd : (scens.map Scenario.id).Nodup) :
    (evaluate st scens cache none).2 =
      Except.ok ((scens.map (fun s => s.prob * s.objVal (some cache))).sum)
  ∧ ∀ f : ℚ → ℚ, (evaluate st scens cache (some f)).2 =
      Except.ok ((scens.map (fun s => s.prob * f (s.objVal (some cache)))).sum) := by
  have heq : ∀ fct, evaluate st scens cache fct =
      Eobjective (solve_loop (fix_nonants (lazy_create_solvers st) cache) scens true) scens fct :=
    fun _ => rfl
  have hbasefix : ({ lazy_create_solvers (fix_nonants (lazy_create_solvers st) cache) with objs_dict := some [] } : XState).fixedAt = some cache := by
    show (lazy_create_solvers (fix_nonants (lazy_create_solvers st) cache)).fixedAt = some cache
    rw [lazy_fixedAt]
    rfl
  have hsl : solve_loop (fix_nonants (lazy_create_solvers st) cache) scens true
      = scens.foldl (fun a s => solve_one a s true)
          { lazy_create_solvers (fix_nonants (lazy_create_solvers st) cache) with objs_dict := some [] } := by
    simp [solve_loop]
  have hdict : (solve_loop (fix_nonants (lazy_create_solvers st) cache) scens true).objs_dict
      = some (scens.map (fun s => (s.id, s.objVal (some cache)))) := by
    rw [hsl]
    rw [foldl_solve_one_true_dict scens _ [] rfl
      (by intro s' _ p hp; simp at hp) hnd]
    rw [hbasefix]
    simp
  have hfix3 : (solve_loop (fix_nonants (lazy_create_solvers st) cache) scens true).fixedAt = some cache := by
    rw [hsl, foldl_solve_one_fixedAt]
    exact hbasefix
  constructor
  · rw [heq none]
    show Except.ok (Eobjective_local scens (lazy_create_solvers (solve_loop (fix_nonants (lazy_create_solvers st) cache) scens true))) = _
    unfold Eobjective_local
    rw [lazy_fixedAt, hfix3]
  · intro f
    rw [heq (some f)]
    have h2 : (Eobjective (solve_loop (fix_nonants (lazy_create_solvers st) cache) scens true) scens (some f)).2
        = sumFromDict (scens.map (fun s => (s.id, s.objVal (some cache)))) f scens := by
      unfold Eobjective
      simp only [lazy_objs_dict, hdict]
    rw [h2]
    exact sumFromDict_of_lookup _ f (fun s => s.objVal (some cache)) scens
      (fun s hs => dictGet_map_self (fun s' => s'.objVal (some cache)) scens s hs hnd)

/-- C8: for a full nonant assignment, `evaluate` fixes the non-anticipative
variables, solves every scenario, and returns the expected objective across
the whole ensemble (the sum over all scenarios, on all ranks, of probability
times objective value); with a composing function `fct` it returns the
expectation of `fct` of the per-scenario objective values. -/
theorem evaluate_expected_objective (ranks : List (List Scenario))
    (cache : List ℚ)
    (hnd : ∀ scens ∈ ranks, (scens.map Scenario.id).Nodup) :
    evaluate_collective ranks cache none =
      Except.ok ((ranks.flatten.map (fun s => s.prob * s.objVal (some cache))).sum)
  ∧ ∀ f : ℚ → ℚ, evaluate_collective ranks cache (some f) =
      Except.ok ((ranks.flatten.map (fun s => s.prob * f (s.objVal (some cache)))).sum) := by
  induction ranks with
  | nil => exact ⟨by simp [evaluate_collective], fun f => by simp [evaluate_collective]⟩
  | cons scens rest ih =>
    have hrec := ih (fun sc hsc => hnd sc (by simp [hsc]))
    have hone := evaluate_result (initState []) scens cache (hnd scens (by simp))
    constructor
    · show (List.foldr _ _ (scens :: rest) : Except EvalError ℚ) = _
      rw [List.foldr_cons]
      have hr : evaluate_collective rest cache none =
          Except.ok ((rest.flatten.map (fun s => s.prob * s.objVal (some cache))).sum) := hrec.1
      unfold evaluate_collective at hr
      rw [hone.1, hr]
      simp [List.map_append, List.sum_append]
    · intro f
      show (List.foldr _ _ (scens :: rest) : Except EvalError ℚ) = _
      rw [List.foldr_cons]
      have hr : evaluate_collective rest cache (some f) =
          Except.ok ((rest.flatten.map (fun s => s.prob * f (s.objVal (some cache)))).sum) := hrec.2 f
      unfold evaluate_collective at hr
      rw [hone.2 f, hr]
      simp [List.map_append, List.sum_append]

/-- Witness for C8 at concrete inputs: two scenarios with probabilities 3/5
and 2/5 and objectives 10 and 20 at the fixed candidate give expected value
14, and expectation of the doubling function gives 28. -/
theorem evaluate_expected_objective_witness :
    (∀ scens ∈ [[scA, scB]], (scens.map Scenario.id).Nodup)
  ∧ evaluate_collective [[scA, scB]] [2] none = Except.ok 14
  ∧ evaluate_collective [[scA, scB]] [2] (some (fun x => x + x)) =
      Except.ok 28 := by
  have hnd : ∀ scens ∈ [[scA, scB]], (scens.map Scenario.id).Nodup := by decide
  refine ⟨hnd, ?_, ?_⟩
  · exact ((evaluate_expected_objective [[scA, scB]] [2] hnd).1).trans
      (by norm_num [scA, scB])
  · exact ((evaluate_expected_objective [[scA, scB]] [2] hnd).2
      (fun x => x + x)).trans (by norm_num [scA, scB])

end MpiSppy.XhatEval
